import Mathlib

/-!
Verification of the pulse-extraction engine of the `esp-pulser` firmware.

The Rust sources are shallowly embedded:
* `f32` samples, filter coefficients and regression sums become exact
  rationals (`ℚ`); the sign tests and the algebraic identities proved here
  are the exact-arithmetic content of the floating-point code.
* `u16`/`u32` state of the adaptive-threshold detector becomes `ℕ` with an
  explicit `% 2^16` / `% 2^32` at every operation whose Rust counterpart
  can wrap in a release build.
* Iterators (`CircIter`, `DerivItr`, `HeartbeatItr`) become step functions
  or structurally recursive list transformers.
* Divisions and subtractions whose safety is claimed are made observable:
  the embedded operation returns, next to the new state, the concrete
  divisor or operand pair that the Rust code would have used.
-/

namespace EspPulser

/-! ## `filters.rs` -/

/-- State of `HighPassFilter` (`filters.rs`).  The coefficient seed
`k_x = exp(-1.0/samples)` is not a rational number, so constructors take
the already-computed decay value `k_x` as an abstract rational. -/
structure HighPassFilter where
  k_a0 : ℚ
  k_a1 : ℚ
  k_b1 : ℚ
  last_filter_value : Option ℚ
  last_raw_value : Option ℚ
deriving DecidableEq

/-- `HighPassFilter::from_samples`, with the decay `k_x` precomputed. -/
def HighPassFilter.from_samples (k_x : ℚ) : HighPassFilter :=
  let k_a0 := (1 + k_x) / 2
  { k_a0 := k_a0, k_a1 := -k_a0, k_b1 := k_x,
    last_filter_value := none, last_raw_value := none }

/-- `HighPassFilter::run`: returns the updated filter and the output. -/
def HighPassFilter.run (f : HighPassFilter) (value : ℚ) : HighPassFilter × ℚ :=
  let filter_value :=
    match f.last_filter_value, f.last_raw_value with
    | none, _ => 0
    | _, none => 0
    | some last_filter, some last_raw =>
        f.k_a0 * value + f.k_a1 * last_raw + f.k_b1 * last_filter
  ({ f with last_filter_value := some filter_value,
            last_raw_value := some value }, filter_value)

/-- `HighPassFilter::reset_state`. -/
def HighPassFilter.reset_state (f : HighPassFilter) : HighPassFilter :=
  { f with last_filter_value := none, last_raw_value := none }

/-- Fold a whole input sequence through the high-pass filter. -/
def HighPassFilter.runAll (f : HighPassFilter) (xs : List ℚ) : HighPassFilter :=
  xs.foldl (fun st x => (st.run x).1) f

/-- The output sequence the high-pass filter produces on an input list. -/
def HighPassFilter.outputs (f : HighPassFilter) (xs : List ℚ) : List ℚ :=
  match xs with
  | [] => []
  | x :: rest =>
    let r := f.run x
    r.2 :: r.1.outputs rest

/-- State of `LowPassFilter` (`filters.rs`). -/
structure LowPassFilter where
  k_a0 : ℚ
  k_b1 : ℚ
  last_value : Option ℚ
deriving DecidableEq

/-- `LowPassFilter::from_samples`, with the decay `k_x` precomputed. -/
def LowPassFilter.from_samples (k_x : ℚ) : LowPassFilter :=
  { k_a0 := 1 - k_x, k_b1 := k_x, last_value := none }

/-- `LowPassFilter::run`: returns the updated filter and the output. -/
def LowPassFilter.run (f : LowPassFilter) (value : ℚ) : LowPassFilter × ℚ :=
  let filter_value :=
    match f.last_value with
    | none => value
    | some last_value => f.k_a0 * value + f.k_b1 * last_value
  ({ f with last_value := some filter_value }, filter_value)

/-- `LowPassFilter::reset_state`. -/
def LowPassFilter.reset_state (f : LowPassFilter) : LowPassFilter :=
  { f with last_value := none }

/-- Fold a whole input sequence through the low-pass filter. -/
def LowPassFilter.runAll (f : LowPassFilter) (xs : List ℚ) : LowPassFilter :=
  xs.foldl (fun st x => (st.run x).1) f

/-- The output sequence the low-pass filter produces on an input list. -/
def LowPassFilter.outputs (f : LowPassFilter) (xs : List ℚ) : List ℚ :=
  match xs with
  | [] => []
  | x :: rest =>
    let r := f.run x
    r.2 :: r.1.outputs rest

/-- State of `Differentiator` (`filters.rs`). -/
structure Differentiator where
  prev : Option ℚ
  sampling_rate : ℚ
deriving DecidableEq

/-- `Differentiator::new`. -/
def Differentiator.new (sampling_rate : ℚ) : Differentiator :=
  { prev := none, sampling_rate := sampling_rate }

/-- `Differentiator::diff`: updated state plus optional derivative. -/
def Differentiator.diff (d : Differentiator) (x : ℚ) :
    Differentiator × Option ℚ :=
  match d.prev with
  | none => ({ d with prev := some x }, none)
  | some prev => ({ d with prev := some x }, some ((x - prev) * d.sampling_rate))

/-- `Differentiator::reset_state`. -/
def Differentiator.reset_state (d : Differentiator) : Differentiator :=
  { d with prev := none }

/-- Fold a whole input sequence through the differentiator. -/
def Differentiator.diffAll (d : Differentiator) (xs : List ℚ) : Differentiator :=
  xs.foldl (fun st x => (st.diff x).1) d

/-- The output sequence the differentiator produces on an input list. -/
def Differentiator.outputs (d : Differentiator) (xs : List ℚ) : List (Option ℚ) :=
  match xs with
  | [] => []
  | x :: rest =>
    let r := d.diff x
    r.2 :: r.1.outputs rest

/-! ## `linreg.rs` -/

/-- The cached constant `sumx = ((n - 1) * n) as f32 / 2.0` of `Linreg`.
The subtraction is the `usize` one, here truncated `ℕ` subtraction. -/
def sumxF (n : ℕ) : ℚ := (((n - 1) * n : ℕ) : ℚ) / 2

/-- The cached constant `sum_xsq = (0..n).map(|x| x*x).sum()` of `Linreg`. -/
def sumXsqF (n : ℕ) : ℚ :=
  ((List.range n).map (fun x : ℕ => (x : ℚ) * (x : ℚ))).sum

/-- State of `Linreg` (`linreg.rs`). -/
structure Linreg where
  intercept : ℚ
  slope : ℚ
  n : ℕ
  sumx : ℚ
  sum_xsq : ℚ
  sumx_sq : ℚ
deriving DecidableEq

/-- `Linreg::new`. -/
def Linreg.new (n : ℕ) : Linreg :=
  { intercept := 0, slope := 1, n := n,
    sumx := sumxF n, sum_xsq := sumXsqF n, sumx_sq := sumxF n * sumxF n }

/-- `Linreg::update_constants`. -/
def Linreg.update_constants (l : Linreg) : Linreg :=
  { l with sumx := sumxF l.n, sum_xsq := sumXsqF l.n,
           sumx_sq := sumxF l.n * sumxF l.n }

/-- `Linreg::y`. -/
def Linreg.y (l : Linreg) (x : ℚ) : ℚ := l.intercept + l.slope * x

/-- The loop of `Linreg::update_from` accumulating `sum_xy`:
`for (i, x) in data.iter().enumerate() { sum_xy += x * i as f32 }`. -/
def sumXYAux : ℕ → List ℚ → ℚ
  | _, [] => 0
  | i, x :: rest => x * (i : ℚ) + sumXYAux (i + 1) rest

/-- `Linreg::update_from`.  Returns the updated state together with the
divisor of the two divisions the Rust code executes (`none` when the
empty-window early return skips them; both divisions share one divisor). -/
def Linreg.update_from (l : Linreg) (data : List ℚ) : Linreg × Option ℚ :=
  let sum_y := data.sum
  let sum_xy := sumXYAux 0 data
  let n := data.length
  if n = 0 then
    ({ l with intercept := 0, slope := 1 }, none)
  else
    let l' := if n ≠ l.n then Linreg.update_constants { l with n := n } else l
    let nq : ℚ := (l'.n : ℚ)
    let denom := nq * l'.sum_xsq - l'.sumx_sq
    ({ l' with
        intercept := (sum_y * l'.sum_xsq - l'.sumx * sum_xy) / denom,
        slope := (nq * sum_xy - l'.sumx * sum_y) / denom }, some denom)

/-- Consistency of the cached sums of a `Linreg` with its window length:
every state the Rust constructor and methods can actually build satisfies
this (the constants are recomputed whenever `n` changes). -/
def Linreg.WF (l : Linreg) : Prop :=
  l.sumx = sumxF l.n ∧ l.sum_xsq = sumXsqF l.n ∧ l.sumx_sq = l.sumx * l.sumx

instance (l : Linreg) : Decidable l.WF := by
  unfold Linreg.WF; infer_instance

/-! ## `circ.rs`

`Circ<T, COUNT>` keeps `data: [T; COUNT]` and a write cursor `next`.  The
array becomes a list whose length is maintained at `COUNT`; the const
generic `COUNT` becomes an explicit argument.  Out-of-range indexing,
which the Rust code never performs under the length/cursor invariant,
is replaced by `getD` with the `Inhabited` default. -/

/-- `Circ<T, COUNT>`. -/
structure Circ (α : Type) where
  data : List α
  next : ℕ
deriving DecidableEq

/-- `wrap_next::<COUNT>`. -/
def wrap_next (COUNT n : ℕ) : ℕ :=
  let n1 := n + 1
  if n1 ≥ COUNT then 0 else n1

/-- `Circ::new(zero)`. -/
def Circ.new (COUNT : ℕ) (zero : α) : Circ α :=
  { data := List.replicate COUNT zero, next := 0 }

/-- `Circ::add`. -/
def Circ.add (COUNT : ℕ) (c : Circ α) (s : α) : Circ α :=
  { data := c.data.set c.next s, next := wrap_next COUNT c.next }

/-- A sequence of `Circ::add` calls, oldest first. -/
def Circ.addAll (COUNT : ℕ) (c : Circ α) (xs : List α) : Circ α :=
  xs.foldl (Circ.add COUNT) c

/-- State of `CircIter` (the borrowed buffer is passed separately). -/
structure CircIter where
  idx : ℕ
  done : Bool
deriving DecidableEq

/-- `Circ::iter`. -/
def Circ.iter (c : Circ α) : CircIter := { idx := c.next, done := false }

/-- `CircIter::next`. -/
def circIterNext [Inhabited α] (COUNT : ℕ) (c : Circ α) (it : CircIter) :
    Option (α × CircIter) :=
  if it.done then none
  else
    let res := c.data.getD it.idx default
    let idx := wrap_next COUNT it.idx
    some (res, { idx := idx, done := idx = c.next })

/-- Drive `CircIter::next` for at most `fuel` steps, collecting the yielded
values.  The Rust iterator needs exactly `COUNT` steps to finish; the fuel
makes the recursion structural and the theorems show any `fuel ≥ COUNT`
gives the full, stable sequence. -/
def runIter [Inhabited α] (COUNT : ℕ) (c : Circ α) : ℕ → CircIter → List α
  | 0, _ => []
  | fuel + 1, it =>
    match circIterNext COUNT c it with
    | none => []
    | some (x, it') => x :: runIter COUNT c fuel it'

/-- The full sequence `Circ::iter` yields. -/
def Circ.iterList [Inhabited α] (COUNT : ℕ) (c : Circ α) (fuel : ℕ) : List α :=
  runIter COUNT c fuel c.iter

/-- The chronological reading of the buffer contents, oldest first. -/
def Circ.toChron (c : Circ α) : List α :=
  c.data.drop c.next ++ c.data.take c.next

/-! ## `signal.rs` -/

/-- `Heartbeat` (`signal.rs`). -/
structure Heartbeat where
  high_idx : ℕ
  high_value : ℚ
  low_idx : ℕ
  low_value : ℚ
deriving DecidableEq

/-- `DerivItrItem` (`signal.rs`). -/
structure DerivItrItem where
  idx : ℕ
  sample : ℚ
  deriv : ℚ
deriving DecidableEq, Inhabited

/-- The first difference `data[i+1] - data[i]` at index `i`. -/
def derivAt (data : List ℚ) (i : ℕ) : ℚ := data.getD (i + 1) 0 - data.getD i 0

/-- The sequence `DerivItr` yields on a window of length `N`: items
`⟨i, data[i], data[i+1] - data[i]⟩` for `i = 0 .. N-2` (`N - 1` items). -/
def derivItems (data : List ℚ) : List DerivItrItem :=
  (List.range (data.length - 1)).map
    (fun i => { idx := i, sample := data.getD i 0, deriv := derivAt data i })

/-- The loop of `HeartbeatItr::next`, run to exhaustion over the remaining
derivative items, carrying the iterator state `high` (candidate high point)
and `last_deriv`, and collecting every emitted `Heartbeat`. -/
def hbRun : Option DerivItrItem → Option ℚ → List DerivItrItem → List Heartbeat
  | _, _, [] => []
  | high, none, d :: rest => hbRun high (some d.deriv) rest
  | high, some ld, d :: rest =>
    if 0 ≤ d.deriv then
      if 0 ≤ ld then hbRun (some d) (some d.deriv) rest
      else
        match high with
        | some h =>
          { high_idx := h.idx, high_value := h.sample,
            low_idx := d.idx, low_value := d.sample }
            :: hbRun high (some d.deriv) rest
        | none => hbRun high (some d.deriv) rest
    else hbRun high (some d.deriv) rest

/-- All heartbeats `HeartbeatItr::new(data)` yields. -/
def heartbeats (data : List ℚ) : List Heartbeat :=
  hbRun none none (derivItems data)

/-- Points whose first difference and preceding first difference are both
non-negative: exactly the points `HeartbeatItr` stores as candidate high. -/
def highCandidate (data : List ℚ) (i : ℕ) : Prop :=
  1 ≤ i ∧ 0 ≤ derivAt data i ∧ 0 ≤ derivAt data (i - 1)

instance (data : List ℚ) (i : ℕ) : Decidable (highCandidate data i) := by
  unfold highCandidate; infer_instance

/-- What `HeartbeatItr` actually emits: a heartbeat is produced at the
moment the first difference turns from negative back to non-negative; its
low point is that turning point, and its high point is the latest earlier
candidate (a point whose difference and preceding difference are both
non-negative), with no candidate between the two. -/
def HbSpec (data : List ℚ) (hb : Heartbeat) : Prop :=
  1 ≤ hb.low_idx ∧ hb.low_idx + 1 < data.length ∧
  0 ≤ derivAt data hb.low_idx ∧ derivAt data (hb.low_idx - 1) < 0 ∧
  hb.low_value = data.getD hb.low_idx 0 ∧
  highCandidate data hb.high_idx ∧ hb.high_idx < hb.low_idx ∧
  hb.high_value = data.getD hb.high_idx 0 ∧
  ∀ i, hb.high_idx < i → i < hb.low_idx → ¬ highCandidate data i

/-! ## `pulse_sensor.rs`

The adaptive-threshold streaming detector.  All `u16`/`u32` fields become
`ℕ`; every arithmetic operation that can wrap in a Rust release build
carries an explicit `% 65536` (`u16`) or `% 4294967296` (`u32`).
`sample_counter`/`last_beat_time` are kept as unbounded counters: since
`last_beat_time` is always a previous value of `sample_counter`, the
wrapping `u32` subtraction of the source equals
`(sample_counter - last_beat_time) % 4294967296` on these counters. -/

/-- `ESP32_ADC_RESOLUTION`. -/
def ESP32_ADC_RESOLUTION : ℕ := 4095

/-- State of `PulseSensor` (`pulse_sensor.rs`). -/
structure PulseSensor where
  bpm : ℕ
  signal : ℕ
  ibi : ℕ
  pulse : Bool
  qs : Bool
  thresh_setting : ℕ
  amp : ℕ
  last_beat_time : ℕ
  sample_interval_ms : ℕ
  rate : List ℕ
  sample_counter : ℕ
  n : ℕ
  p : ℕ
  t : ℕ
  thresh : ℕ
  first_beat : Bool
  second_beat : Bool
deriving DecidableEq

/-- `PulseSensor::new`. -/
def PulseSensor.new : PulseSensor :=
  { bpm := 0, signal := 0, ibi := 750, pulse := false, qs := false,
    thresh_setting := ESP32_ADC_RESOLUTION / 10 * 6,
    amp := ESP32_ADC_RESOLUTION / 10, last_beat_time := 0,
    sample_interval_ms := 2, rate := List.replicate 10 0,
    sample_counter := 0, n := 0,
    p := ESP32_ADC_RESOLUTION / 2, t := ESP32_ADC_RESOLUTION / 2,
    thresh := ESP32_ADC_RESOLUTION / 10 * 6,
    first_beat := true, second_beat := false }

/-- `PulseSensor::reset_variables`. -/
def PulseSensor.reset_variables (s : PulseSensor) : PulseSensor :=
  { s with qs := false, bpm := 0, ibi := 750, pulse := false,
           sample_counter := 0, last_beat_time := 0,
           p := ESP32_ADC_RESOLUTION / 2, t := ESP32_ADC_RESOLUTION / 2,
           thresh := s.thresh_setting, amp := ESP32_ADC_RESOLUTION / 10,
           first_beat := true, second_beat := false }

/-- `PulseSensor::get_beats_per_minute`. -/
def PulseSensor.get_beats_per_minute (s : PulseSensor) : ℕ := s.bpm

/-- `PulseSensor::read_next_sample` (the sample is a `u16` ADC value). -/
def PulseSensor.read_next_sample (s : PulseSensor) (sample : ℕ) : PulseSensor :=
  { s with signal := sample }

/-- The observable side conditions of one `process_latest_sample` call:
the operand pair `(p, t)` of the `u16` subtraction `amp = p - t` when the
pulse-end branch ran, and the rate array with the divisor `running_total`
of `bpm = 60_000 / running_total` when the BPM branch ran. -/
structure StepEvents where
  ampSub : Option (ℕ × ℕ)
  bpmDiv : Option (List ℕ × ℕ)
deriving DecidableEq

/-- Opening lines of `process_latest_sample`: advance `sample_counter`,
recompute `n` (wrapping `u32` subtraction then `as u16` cast). -/
def PulseSensor.clock (s : PulseSensor) : PulseSensor :=
  let sample_counter := s.sample_counter + s.sample_interval_ms
  { s with sample_counter := sample_counter,
           n := (sample_counter - s.last_beat_time) % 4294967296 % 65536 }

/-- Trough-tracking block of `process_latest_sample`. -/
def PulseSensor.troughPhase (s : PulseSensor) : PulseSensor :=
  if s.signal < s.thresh ∧ s.ibi / 5 * 3 < s.n then
    (if s.signal < s.t then { s with t := s.signal } else s)
  else s

/-- Peak-tracking block of `process_latest_sample`. -/
def PulseSensor.peakPhase (s : PulseSensor) : PulseSensor :=
  if s.thresh < s.signal ∧ s.p < s.signal then { s with p := s.signal } else s

/-- Beat-detection block of `process_latest_sample`.  Returns the state,
the BPM-division event, and whether the `first_beat` early `return` fired
(skipping the rest of the function). -/
def PulseSensor.beatPhase (s : PulseSensor) :
    PulseSensor × Option (List ℕ × ℕ) × Bool :=
  if 250 < s.n ∧ s.thresh < s.signal ∧ s.pulse = false ∧ s.ibi / 5 * 3 < s.n then
    let s := { s with pulse := true, ibi := s.n,
                      last_beat_time := s.sample_counter }
    let s := if s.second_beat then
               { s with second_beat := false, rate := List.replicate 10 s.ibi }
             else s
    if s.first_beat then
      ({ s with first_beat := false, second_beat := true }, none, true)
    else
      let rate := s.rate.drop 1 ++ [s.ibi]
      let running_total := rate.sum % 65536 / 10
      ({ s with rate := rate, bpm := 60000 / running_total, qs := true },
       some (rate, running_total), false)
  else (s, none, false)

/-- Pulse-end block of `process_latest_sample`: `amp = p - t` is the
wrapping `u16` subtraction, `(p + t) / 2` the wrapping `u16` addition. -/
def PulseSensor.pulseEndPhase (s : PulseSensor) : PulseSensor × Option (ℕ × ℕ) :=
  if s.signal < s.thresh ∧ s.pulse = true then
    let amp := (s.p + 65536 - s.t) % 65536
    let thresh := (s.p + s.t) % 65536 / 2
    ({ s with pulse := false, amp := amp, thresh := thresh,
              p := thresh, t := thresh }, some (s.p, s.t))
  else (s, none)

/-- Timeout block of `process_latest_sample` (2.5 s without a beat). -/
def PulseSensor.timeoutPhase (s : PulseSensor) : PulseSensor :=
  if 2500 < s.n then
    { s with thresh := s.thresh_setting,
             p := ESP32_ADC_RESOLUTION / 2, t := ESP32_ADC_RESOLUTION / 2,
             last_beat_time := s.sample_counter,
             first_beat := true, second_beat := false, qs := false,
             bpm := 0, ibi := 750, pulse := false,
             amp := ESP32_ADC_RESOLUTION / 10 }
  else s

/-- `PulseSensor::process_latest_sample`, with the step events. -/
def PulseSensor.process_latest_sample (s : PulseSensor) :
    PulseSensor × StepEvents :=
  let s := (s.clock.troughPhase).peakPhase
  match s.beatPhase with
  | (s, ev, true) => (s, { ampSub := none, bpmDiv := ev })
  | (s, ev, false) =>
    let r := s.pulseEndPhase
    (r.1.timeoutPhase, { ampSub := r.2, bpmDiv := ev })

/-- Feed a list of raw samples: each is `read_next_sample` followed by
`process_latest_sample`, as the sensing loop does. -/
def PulseSensor.feed (s : PulseSensor) (xs : List ℕ) : PulseSensor :=
  xs.foldl (fun st x => ((st.read_next_sample x).process_latest_sample).1) s

/-- States reachable from `PulseSensor::new` by reads of in-range ADC
samples, processing passes and resets. -/
inductive PulseSensor.Reachable : PulseSensor → Prop
  | init : PulseSensor.Reachable PulseSensor.new
  | read {s sample} : PulseSensor.Reachable s → sample ≤ 4095 →
      PulseSensor.Reachable (s.read_next_sample sample)
  | process {s} : PulseSensor.Reachable s →
      PulseSensor.Reachable s.process_latest_sample.1
  | reset {s} : PulseSensor.Reachable s →
      PulseSensor.Reachable s.reset_variables

/-- The state invariant of the adaptive-threshold detector: peak/trough
order and range, fixed configuration fields, beat-time bookkeeping, and
the seeding discipline of the 10-slot rate array. -/
def PulseSensor.Inv (s : PulseSensor) : Prop :=
  s.t ≤ s.p ∧ s.p ≤ 4095 ∧ s.thresh ≤ 4095 ∧ s.signal ≤ 4095 ∧
  s.thresh_setting = 2454 ∧ s.sample_interval_ms = 2 ∧
  s.last_beat_time ≤ s.sample_counter ∧
  s.sample_counter - s.last_beat_time ≤ 2500 ∧
  s.rate.length = 10 ∧
  (s.first_beat = false → s.second_beat = false →
    ∀ x ∈ s.rate, 250 < x ∧ x ≤ 2502)

/-- Mid-call invariant, holding between the opening `clock` lines and the
timeout block of one `process_latest_sample` call. -/
def PulseSensor.Mid (s : PulseSensor) : Prop :=
  s.t ≤ s.p ∧ s.p ≤ 4095 ∧ s.thresh ≤ 4095 ∧ s.signal ≤ 4095 ∧
  s.thresh_setting = 2454 ∧ s.sample_interval_ms = 2 ∧
  s.last_beat_time ≤ s.sample_counter ∧
  (s.sample_counter - s.last_beat_time = s.n ∨
    s.sample_counter = s.last_beat_time) ∧
  s.n ≤ 2502 ∧
  s.rate.length = 10 ∧
  (s.first_beat = false → s.second_beat = false →
    ∀ x ∈ s.rate, 250 < x ∧ x ≤ 2502)

/-- Input trace driving `PulseSensor` to its second detected beat with a
252 ms beat period: 225 low samples, a first pulse, 135 low samples, a
second pulse. -/
def traceHead : List ℕ :=
  List.replicate 225 0 ++ [3000] ++ List.replicate 135 0

/-- `traceHead` followed by the processing pass that computes a BPM. -/
def traceC3 : List ℕ := traceHead ++ [3000]

/-- The sensor state one `read_next_sample` before the BPM division of the
`traceC3` run. -/
def sensorPre : PulseSensor :=
  (PulseSensor.feed PulseSensor.new traceHead).read_next_sample 3000

/-- State after the 225 leading zero samples of `traceHead`. -/
def sensorA : PulseSensor :=
  { PulseSensor.new with sample_counter := 450, n := 450 }

/-- State after the first pulse sample (first beat detected). -/
def sensorB : PulseSensor :=
  { PulseSensor.new with
    signal := 3000, ibi := 452, pulse := true, last_beat_time := 452,
    sample_counter := 452, n := 452, p := 3000, first_beat := false,
    second_beat := true }

/-- State after the zero sample ending the first pulse. -/
def sensorC : PulseSensor :=
  { sensorB with
    signal := 0, pulse := false, amp := 953, sample_counter := 454,
    n := 2, p := 2523, t := 2523, thresh := 2523 }

/-- State after the remaining 134 zero samples, just before the second
pulse sample. -/
def sensorD : PulseSensor :=
  { sensorC with sample_counter := 722, n := 270 }

instance (s : PulseSensor) : Decidable s.Inv := by
  unfold PulseSensor.Inv; infer_instance

/-! ## Theorems: `linreg.rs` -/

/-- Claim C6: `update_from` on the empty slice sets `intercept = 0`,
`slope = 1`, changes nothing else of the state (in particular not the
cached window length or sums), and executes no division. -/
theorem linreg_update_from_empty (l : Linreg) :
    l.update_from [] = ({ l with intercept := 0, slope := 1 }, none) := rfl

theorem sumxF_eq (n : ℕ) : sumxF n = (n : ℚ) * ((n : ℚ) - 1) / 2 := by
  cases n with
  | zero => simp [sumxF]
  | succ m =>
    unfold sumxF
    rw [Nat.succ_sub_one]
    push_cast
    ring

theorem linreg_new_wf (n : ℕ) : (Linreg.new n).WF := ⟨rfl, rfl, rfl⟩

theorem sumXsqF_eq (n : ℕ) :
    sumXsqF n = (n : ℚ) * ((n : ℚ) - 1) * (2 * (n : ℚ) - 1) / 6 := by
  induction n with
  | zero => simp [sumXsqF]
  | succ m ih =>
    unfold sumXsqF at ih ⊢
    rw [List.range_succ, List.map_append, List.sum_append, ih]
    simp only [List.map_cons, List.map_nil, List.sum_cons, List.sum_nil]
    push_cast
    ring

theorem linreg_denom_eq (n : ℕ) :
    (n : ℚ) * sumXsqF n - sumxF n * sumxF n
      = (n : ℚ) ^ 2 * ((n : ℚ) ^ 2 - 1) / 12 := by
  rw [sumxF_eq, sumXsqF_eq]; ring

theorem linreg_denom_pos (n : ℕ) (h : 2 ≤ n) :
    0 < (n : ℚ) * sumXsqF n - sumxF n * sumxF n := by
  rw [linreg_denom_eq]
  have h2 : (2 : ℚ) ≤ (n : ℚ) := by exact_mod_cast h
  have h4 : (4 : ℚ) ≤ (n : ℚ) ^ 2 := by nlinarith
  have : (0 : ℚ) < (n : ℚ) ^ 2 * ((n : ℚ) ^ 2 - 1) := by nlinarith
  linarith [div_pos this (by norm_num : (0:ℚ) < 12)]

theorem linreg_update_from_spec (l : Linreg) (data : List ℚ) (hwf : l.WF)
    (hlen : data.length ≠ 0) :
    l.update_from data =
      ({ intercept := (data.sum * sumXsqF data.length
            - sumxF data.length * sumXYAux 0 data)
            / ((data.length : ℚ) * sumXsqF data.length
               - sumxF data.length * sumxF data.length),
         slope := ((data.length : ℚ) * sumXYAux 0 data
            - sumxF data.length * data.sum)
            / ((data.length : ℚ) * sumXsqF data.length
               - sumxF data.length * sumxF data.length),
         n := data.length, sumx := sumxF data.length,
         sum_xsq := sumXsqF data.length,
         sumx_sq := sumxF data.length * sumxF data.length },
       some ((data.length : ℚ) * sumXsqF data.length
             - sumxF data.length * sumxF data.length)) := by
  obtain ⟨h1, h2, h3⟩ := hwf
  simp only [Linreg.update_from]
  rw [if_neg hlen]
  by_cases h : data.length = l.n
  · rw [if_neg (by simp [h])]
    simp [Linreg.mk.injEq, Prod.ext_iff, h1, h2, h3, h]
  · rw [if_pos (by simpa using h)]
    simp [Linreg.update_constants, Linreg.mk.injEq, Prod.ext_iff]

/-- Claim C4 counterexample: on the slice `[5]` of length 1 the
emptiness guard does not fire, and the division of `update_from` is
executed with divisor `n*sum_xsq - sumx_sq = 1*0 - 0 = 0`: a division by
zero is produced, contradicting the claim for windows of length 1. -/
theorem linreg_div_by_zero_on_singleton :
    ((Linreg.new 10).update_from [5]).2 = some 0 := by
  rw [linreg_update_from_spec (Linreg.new 10) [5] (linreg_new_wf 10) (by simp)]
  norm_num [sumxF, sumXsqF, List.range_succ]

/-- Claim C4 (amended): for every cache-consistent state and every slice
whose length is not 1, each division executed by `update_from` has a
nonzero divisor — the empty slice is caught by the length guard before
any division, and for length `n ≥ 2` the denominator
`n*sum_xsq - sumx_sq = n²(n²-1)/12` is positive.  (For slices of length
exactly 1 the divisor is zero, see the counterexample.) -/
theorem linreg_no_div_by_zero (l : Linreg) (data : List ℚ) (hwf : l.WF)
    (hne : data.length ≠ 1) : (l.update_from data).2 ≠ some 0 := by
  by_cases h0 : data.length = 0
  · unfold Linreg.update_from
    simp [h0]
  · have h2 : 2 ≤ data.length := by omega
    rw [linreg_update_from_spec l data hwf h0]
    simpa using ne_of_gt (linreg_denom_pos data.length h2)

theorem linreg_no_div_by_zero_witness :
    ((Linreg.new 2).update_from [1, 2]).2 ≠ some 0 :=
  linreg_no_div_by_zero (Linreg.new 2) [1, 2] (linreg_new_wf 2) (by simp)

theorem sumXYAux_append (xs : List ℚ) (y : ℚ) (i : ℕ) :
    sumXYAux i (xs ++ [y]) = sumXYAux i xs + y * ((i + xs.length : ℕ) : ℚ) := by
  induction xs generalizing i with
  | nil => simp [sumXYAux]
  | cons x xs ih =>
    show x * (i : ℚ) + sumXYAux (i + 1) (xs ++ [y])
        = x * (i : ℚ) + sumXYAux (i + 1) xs
          + y * ((i + (xs.length + 1) : ℕ) : ℚ)
    rw [ih (i + 1)]
    push_cast
    ring

theorem linWindow_sum (n : ℕ) (a b : ℚ) :
    (((List.range n).map fun i : ℕ => a + b * (i : ℚ)).sum)
      = (n : ℚ) * a + b * ((n : ℚ) * ((n : ℚ) - 1) / 2) := by
  induction n with
  | zero => simp
  | succ m ih =>
    rw [List.range_succ, List.map_append, List.sum_append, ih]
    push_cast
    simp
    ring

theorem linWindow_sumXY (n : ℕ) (a b : ℚ) :
    sumXYAux 0 ((List.range n).map fun i : ℕ => a + b * (i : ℚ))
      = a * ((n : ℚ) * ((n : ℚ) - 1) / 2)
        + b * ((n : ℚ) * ((n : ℚ) - 1) * (2 * (n : ℚ) - 1) / 6) := by
  induction n with
  | zero => simp [sumXYAux]
  | succ m ih =>
    rw [List.range_succ, List.map_append]
    simp only [List.map_cons, List.map_nil]
    rw [sumXYAux_append, ih]
    simp only [List.length_map, List.length_range, Nat.zero_add]
    push_cast
    ring

/-- Claim C5: fitting a perfectly linear window `i ↦ a + b·i` of length
`n ≥ 2` recovers `intercept = a` and `slope = b` exactly (the embedding
computes in exact rational arithmetic), so `y(x) = a + b·x` afterwards. -/
theorem linreg_linear_roundtrip (l : Linreg) (n : ℕ) (a b : ℚ) (hwf : l.WF)
    (hn : 2 ≤ n) :
    ((l.update_from ((List.range n).map fun i : ℕ => a + b * (i : ℚ))).1.intercept
        = a) ∧
    ((l.update_from ((List.range n).map fun i : ℕ => a + b * (i : ℚ))).1.slope
        = b) ∧
    ∀ x, (l.update_from ((List.range n).map fun i : ℕ => a + b * (i : ℚ))).1.y x
        = a + b * x := by
  have hlen : ((List.range n).map fun i : ℕ => a + b * (i : ℚ)).length = n := by simp
  have hlen0 : ((List.range n).map fun i : ℕ => a + b * (i : ℚ)).length ≠ 0 := by
    rw [hlen]; omega
  have hD : (0 : ℚ) < (n : ℚ) * sumXsqF n - sumxF n * sumxF n :=
    linreg_denom_pos n hn
  rw [linreg_update_from_spec l _ hwf hlen0]
  simp only [hlen]
  rw [linWindow_sum, linWindow_sumXY, sumxF_eq, sumXsqF_eq]
  rw [sumxF_eq, sumXsqF_eq] at hD
  have hDne : (n : ℚ) * ((n : ℚ) * ((n : ℚ) - 1) * (2 * (n : ℚ) - 1) / 6)
      - (n : ℚ) * ((n : ℚ) - 1) / 2 * ((n : ℚ) * ((n : ℚ) - 1) / 2) ≠ 0 :=
    ne_of_gt hD
  have hi : ((n : ℚ) * a + b * ((n : ℚ) * ((n : ℚ) - 1) / 2))
        * ((n : ℚ) * ((n : ℚ) - 1) * (2 * (n : ℚ) - 1) / 6)
      - (n : ℚ) * ((n : ℚ) - 1) / 2
        * (a * ((n : ℚ) * ((n : ℚ) - 1) / 2)
           + b * ((n : ℚ) * ((n : ℚ) - 1) * (2 * (n : ℚ) - 1) / 6))
      = a * ((n : ℚ) * ((n : ℚ) * ((n : ℚ) - 1) * (2 * (n : ℚ) - 1) / 6)
             - (n : ℚ) * ((n : ℚ) - 1) / 2 * ((n : ℚ) * ((n : ℚ) - 1) / 2)) := by
    ring
  have hs : (n : ℚ) * (a * ((n : ℚ) * ((n : ℚ) - 1) / 2)
           + b * ((n : ℚ) * ((n : ℚ) - 1) * (2 * (n : ℚ) - 1) / 6))
      - (n : ℚ) * ((n : ℚ) - 1) / 2
        * ((n : ℚ) * a + b * ((n : ℚ) * ((n : ℚ) - 1) / 2))
      = b * ((n : ℚ) * ((n : ℚ) * ((n : ℚ) - 1) * (2 * (n : ℚ) - 1) / 6)
             - (n : ℚ) * ((n : ℚ) - 1) / 2 * ((n : ℚ) * ((n : ℚ) - 1) / 2)) := by
    ring
  refine ⟨?_, ?_, ?_⟩
  · simp only [hi]
    exact mul_div_cancel_right₀ a hDne
  · simp only [hs]
    exact mul_div_cancel_right₀ b hDne
  · intro x
    unfold Linreg.y
    simp only [hi, hs, mul_div_cancel_right₀ a hDne, mul_div_cancel_right₀ b hDne]

theorem linreg_linear_roundtrip_witness :
    ((Linreg.new 7).update_from
        ((List.range 3).map fun i : ℕ => (1 : ℚ) + 2 * (i : ℚ))).1.y 5
      = 1 + 2 * 5 :=
  (linreg_linear_roundtrip (Linreg.new 7) 3 1 2 (linreg_new_wf 7)
    (by norm_num)).2.2 5

/-! ## Theorems: `filters.rs` -/

/-- Claim C7: after construction or `reset_state`, the first `run` of the
high-pass filter returns exactly 0 whatever the input, the first `run` of
the low-pass filter returns exactly its input; once both history fields
are populated (from the second call on), each filter applies its stated
recurrence. -/
theorem filters_cold_start (k_x v lf lr lv : ℚ) (hp : HighPassFilter)
    (lp : LowPassFilter) :
    ((HighPassFilter.from_samples k_x).run v).2 = 0 ∧
    ((LowPassFilter.from_samples k_x).run v).2 = v ∧
    (hp.reset_state.run v).2 = 0 ∧
    (lp.reset_state.run v).2 = v ∧
    (HighPassFilter.run
        { hp with last_filter_value := some lf, last_raw_value := some lr }
        v).2 = hp.k_a0 * v + hp.k_a1 * lr + hp.k_b1 * lf ∧
    (LowPassFilter.run { lp with last_value := some lv } v).2
        = lp.k_a0 * v + lp.k_b1 * lv :=
  ⟨rfl, rfl, rfl, rfl, rfl, rfl⟩

theorem hp_runAll_coeffs (f : HighPassFilter) (xs : List ℚ) :
    (f.runAll xs).k_a0 = f.k_a0 ∧ (f.runAll xs).k_a1 = f.k_a1 ∧
      (f.runAll xs).k_b1 = f.k_b1 := by
  induction xs generalizing f with
  | nil => exact ⟨rfl, rfl, rfl⟩
  | cons x xs ih =>
    simpa [HighPassFilter.runAll, HighPassFilter.run] using ih (f.run x).1

theorem lp_runAll_coeffs (f : LowPassFilter) (xs : List ℚ) :
    (f.runAll xs).k_a0 = f.k_a0 ∧ (f.runAll xs).k_b1 = f.k_b1 := by
  induction xs generalizing f with
  | nil => exact ⟨rfl, rfl⟩
  | cons x xs ih =>
    simpa [LowPassFilter.runAll, LowPassFilter.run] using ih (f.run x).1

theorem diff_diffAll_rate (d : Differentiator) (xs : List ℚ) :
    (d.diffAll xs).sampling_rate = d.sampling_rate := by
  induction xs generalizing d with
  | nil => rfl
  | cons x xs ih =>
    have h2 : (d.diff x).1.sampling_rate = d.sampling_rate := by
      unfold Differentiator.diff
      cases d.prev <;> rfl
    have h := ih (d.diff x).1
    rw [h2] at h
    simpa [Differentiator.diffAll] using h

/-- Claim C8: after any sequence of `run`/`diff` calls on a freshly
constructed high-pass filter, low-pass filter or differentiator,
`reset_state` returns the exact freshly-constructed state (coefficients
are untouched by `run` and by `reset_state`), so every subsequent input
sequence produces the same outputs as a fresh instance built with the
same construction parameters. -/
theorem filters_reset_equiv (k_x r : ℚ) (xs ys : List ℚ) :
    ((HighPassFilter.from_samples k_x).runAll xs).reset_state
        = HighPassFilter.from_samples k_x ∧
    ((LowPassFilter.from_samples k_x).runAll xs).reset_state
        = LowPassFilter.from_samples k_x ∧
    ((Differentiator.new r).diffAll xs).reset_state = Differentiator.new r ∧
    (((HighPassFilter.from_samples k_x).runAll xs).reset_state).outputs ys
        = (HighPassFilter.from_samples k_x).outputs ys ∧
    (((LowPassFilter.from_samples k_x).runAll xs).reset_state).outputs ys
        = (LowPassFilter.from_samples k_x).outputs ys ∧
    (((Differentiator.new r).diffAll xs).reset_state).outputs ys
        = (Differentiator.new r).outputs ys := by
  obtain ⟨h1, h2, h3⟩ := hp_runAll_coeffs (HighPassFilter.from_samples k_x) xs
  obtain ⟨h4, h5⟩ := lp_runAll_coeffs (LowPassFilter.from_samples k_x) xs
  have h6 := diff_diffAll_rate (Differentiator.new r) xs
  have e1 : ((HighPassFilter.from_samples k_x).runAll xs).reset_state
      = HighPassFilter.from_samples k_x := by
    simp [HighPassFilter.reset_state, HighPassFilter.from_samples,
      HighPassFilter.mk.injEq] at *
    exact ⟨h1, h2, h3⟩
  have e2 : ((LowPassFilter.from_samples k_x).runAll xs).reset_state
      = LowPassFilter.from_samples k_x := by
    simp [LowPassFilter.reset_state, LowPassFilter.from_samples,
      LowPassFilter.mk.injEq] at *
    exact ⟨h4, h5⟩
  have e3 : ((Differentiator.new r).diffAll xs).reset_state
      = Differentiator.new r := by
    simp [Differentiator.reset_state, Differentiator.new,
      Differentiator.mk.injEq] at *
    exact h6
  exact ⟨e1, e2, e3, by rw [e1], by rw [e2], by rw [e3]⟩

/-! ## Theorems: `circ.rs` -/

theorem wrap_next_lt (COUNT n : ℕ) (h : 1 ≤ COUNT) : wrap_next COUNT n < COUNT := by
  simp only [wrap_next]
  split <;> omega

theorem runIter_done [Inhabited α] (COUNT : ℕ) (c : Circ α) (fuel i : ℕ) :
    runIter COUNT c fuel { idx := i, done := true } = [] := by
  cases fuel <;> rfl

theorem runIter_lt_next [Inhabited α] (COUNT : ℕ) (c : Circ α)
    (hlen : c.data.length = COUNT) (hnext : c.next < COUNT) :
    ∀ fuel idx, idx < c.next → c.next - idx ≤ fuel →
      runIter COUNT c fuel { idx := idx, done := false }
        = (c.data.take c.next).drop idx := by
  intro fuel
  induction fuel with
  | zero => intro idx h1 h2; omega
  | succ fuel ih =>
    intro idx h1 h2
    have hidx : idx < c.data.length := by omega
    have hwrap : wrap_next COUNT idx = idx + 1 := by
      simp only [wrap_next]
      split <;> omega
    have hstep : runIter COUNT c (fuel + 1) { idx := idx, done := false }
        = c.data.getD idx default ::
          runIter COUNT c fuel
            { idx := idx + 1, done := decide (idx + 1 = c.next) } := by
      simp only [runIter, circIterNext, Bool.false_eq_true, if_false, hwrap]
    have hdropstep : (c.data.take c.next).drop idx
        = c.data[idx] :: (c.data.take c.next).drop (idx + 1) := by
      have hlt : idx < (c.data.take c.next).length := by
        simp [List.length_take]
        omega
      rw [List.drop_eq_getElem_cons hlt, List.getElem_take]
    rw [hstep, List.getD_eq_getElem c.data default hidx, hdropstep]
    by_cases he : idx + 1 = c.next
    · have : decide (idx + 1 = c.next) = true := by simp [he]
      rw [this, runIter_done]
      have : (c.data.take c.next).drop (idx + 1) = [] := by
        apply List.drop_eq_nil_of_le
        simp [List.length_take]
        omega
      rw [this]
    · have : decide (idx + 1 = c.next) = false := by simp [he]
      rw [this, ih (idx + 1) (by omega) (by omega)]

theorem runIter_ge_next [Inhabited α] (COUNT : ℕ) (c : Circ α)
    (hlen : c.data.length = COUNT) (hnext : c.next < COUNT) :
    ∀ fuel idx, c.next ≤ idx → idx < COUNT → COUNT - idx + c.next ≤ fuel →
      runIter COUNT c fuel { idx := idx, done := false }
        = c.data.drop idx ++ c.data.take c.next := by
  intro fuel
  induction fuel with
  | zero => intro idx h1 h2 h3; omega
  | succ fuel ih =>
    intro idx h1 h2 h3
    have hidx : idx < c.data.length := by omega
    have hdropstep : c.data.drop idx = c.data[idx] :: c.data.drop (idx + 1) :=
      List.drop_eq_getElem_cons hidx
    by_cases hw : idx + 1 ≥ COUNT
    · have hidx1 : idx + 1 = COUNT := by omega
      have hwrap : wrap_next COUNT idx = 0 := by
        simp only [wrap_next]
        split <;> omega
      have hstep : runIter COUNT c (fuel + 1) { idx := idx, done := false }
          = c.data.getD idx default ::
            runIter COUNT c fuel
              { idx := 0, done := decide (0 = c.next) } := by
        simp only [runIter, circIterNext, Bool.false_eq_true, if_false, hwrap]
      have hdrop1 : c.data.drop (idx + 1) = [] :=
        List.drop_eq_nil_of_le (by omega)
      by_cases hz : c.next = 0
      · have : decide (0 = c.next) = true := by simp [hz]
        rw [hstep, this, runIter_done, List.getD_eq_getElem c.data default hidx,
          hdropstep, hdrop1, hz]
        simp
      · have hd : decide (0 = c.next) = false := by
          simp [Ne.symm hz]
        rw [hstep, hd, List.getD_eq_getElem c.data default hidx]
        have hfuel : c.next - 0 ≤ fuel := by omega
        rw [runIter_lt_next COUNT c hlen hnext fuel 0 (by omega) hfuel]
        rw [hdropstep, hdrop1]
        simp
    · have hwrap : wrap_next COUNT idx = idx + 1 := by
        simp only [wrap_next]
        split <;> omega
      have hd : decide (idx + 1 = c.next) = false := by
        simp
        omega
      have hstep : runIter COUNT c (fuel + 1) { idx := idx, done := false }
          = c.data.getD idx default ::
            runIter COUNT c fuel
              { idx := idx + 1, done := decide (idx + 1 = c.next) } := by
        simp only [runIter, circIterNext, Bool.false_eq_true, if_false, hwrap]
      rw [hstep, hd, List.getD_eq_getElem c.data default hidx,
        ih (idx + 1) (by omega) (by omega) (by omega), hdropstep,
        List.cons_append]

theorem iterList_eq_toChron [Inhabited α] (COUNT : ℕ) (c : Circ α)
    (hlen : c.data.length = COUNT) (hnext : c.next < COUNT)
    (fuel : ℕ) (hf : COUNT ≤ fuel) :
    c.iterList COUNT fuel = c.toChron := by
  unfold Circ.iterList Circ.iter Circ.toChron
  exact runIter_ge_next COUNT c hlen hnext fuel c.next le_rfl hnext (by omega)

theorem toChron_add (COUNT : ℕ) (c : Circ α) (s : α)
    (hlen : c.data.length = COUNT) (hnext : c.next < COUNT) :
    (Circ.add COUNT c s).toChron = c.toChron.drop 1 ++ [s] := by
  have hidx : c.next < c.data.length := by omega
  have hset : c.data.set c.next s
      = c.data.take c.next ++ s :: c.data.drop (c.next + 1) :=
    List.set_eq_take_cons_drop s hidx
  have hTlen : (c.data.take c.next).length = c.next := by
    simp [List.length_take]
    omega
  have hdropchron : c.toChron.drop 1
      = c.data.drop (c.next + 1) ++ c.data.take c.next := by
    unfold Circ.toChron
    rw [List.drop_append_of_le_length (by simp; omega), List.drop_drop]
  rw [hdropchron]
  simp only [Circ.add, Circ.toChron]
  by_cases hw : c.next + 1 ≥ COUNT
  · have hwrap : wrap_next COUNT c.next = 0 := by
      simp only [wrap_next]
      split <;> omega
    have hD : c.data.drop (c.next + 1) = [] :=
      List.drop_eq_nil_of_le (by omega)
    rw [hwrap, hset, hD]
    simp
  · have hwrap : wrap_next COUNT c.next = c.next + 1 := by
      simp only [wrap_next]
      split <;> omega
    have hD1 : (c.data.take c.next ++ s :: c.data.drop (c.next + 1)).drop
        (c.next + 1) = c.data.drop (c.next + 1) := by
      rw [List.drop_append_eq_append_drop, hTlen]
      have h1 : c.next + 1 - c.next = 1 := by omega
      rw [h1, List.drop_eq_nil_of_le (by rw [hTlen]; omega)]
      simp
    have hD2 : (c.data.take c.next ++ s :: c.data.drop (c.next + 1)).take
        (c.next + 1) = c.data.take c.next ++ [s] := by
      rw [List.take_append_eq_append_take, hTlen]
      have h1 : c.next + 1 - c.next = 1 := by omega
      rw [h1, List.take_of_length_le (by rw [hTlen]; omega)]
      simp
    rw [hwrap, hset, hD1, hD2]
    simp

theorem addAll_spec (COUNT : ℕ) (hC : 1 ≤ COUNT) (fill : α) (vs : List α) :
    (Circ.addAll COUNT (Circ.new COUNT fill) vs).data.length = COUNT ∧
    (Circ.addAll COUNT (Circ.new COUNT fill) vs).next < COUNT ∧
    (Circ.addAll COUNT (Circ.new COUNT fill) vs).toChron
      = (List.replicate COUNT fill ++ vs).drop vs.length := by
  induction vs using List.reverseRecOn with
  | nil =>
    refine ⟨by simp [Circ.addAll, Circ.new], by simp [Circ.addAll, Circ.new]; omega, ?_⟩
    simp [Circ.addAll, Circ.new, Circ.toChron]
  | append_singleton xs x ih =>
    obtain ⟨h1, h2, h3⟩ := ih
    have hstep : Circ.addAll COUNT (Circ.new COUNT fill) (xs ++ [x])
        = Circ.add COUNT (Circ.addAll COUNT (Circ.new COUNT fill) xs) x := by
      unfold Circ.addAll
      rw [List.foldl_append]
      rfl
    refine ⟨?_, ?_, ?_⟩
    · rw [hstep]
      simp only [Circ.add, List.length_set]
      exact h1
    · rw [hstep]
      simp only [Circ.add]
      exact wrap_next_lt COUNT _ hC
    · rw [hstep, toChron_add COUNT _ x h1 h2, h3, List.drop_drop]
      have hlen2 : xs.length + 1 ≤ (List.replicate COUNT fill ++ xs).length := by
        rw [List.length_append, List.length_replicate]
        omega
      have e1 : List.replicate COUNT fill ++ (xs ++ [x])
          = (List.replicate COUNT fill ++ xs) ++ [x] :=
        (List.append_assoc _ _ _).symm
      have e2 : (xs ++ [x]).length = xs.length + 1 := by simp
      rw [e1, e2, List.drop_append_of_le_length hlen2]

/-- Claim C2: starting from `Circ::new(fill)` with capacity `COUNT ≥ 1`,
after any sequence of at least `COUNT` `add` calls the iterator yields
exactly `COUNT` values, namely the last `COUNT` added values in insertion
order (oldest first); with exactly `COUNT` inserts this is the full insert
sequence itself.  Iteration is a pure function of the buffer (`iter`
borrows it immutably), so a fresh iteration yields the same list; any
fuel bound `≥ COUNT` gives the same (complete) sequence. -/
theorem circ_iterate_last_n (α : Type) [Inhabited α] (COUNT : ℕ) (fill : α)
    (vs : List α) (fuel : ℕ) (hC : 1 ≤ COUNT) (hM : COUNT ≤ vs.length)
    (hf : COUNT ≤ fuel) :
    Circ.iterList COUNT (Circ.addAll COUNT (Circ.new COUNT fill) vs) fuel
        = vs.drop (vs.length - COUNT) ∧
    (Circ.iterList COUNT (Circ.addAll COUNT (Circ.new COUNT fill) vs)
        fuel).length = COUNT := by
  obtain ⟨h1, h2, h3⟩ := addAll_spec COUNT hC fill vs
  rw [iterList_eq_toChron COUNT _ h1 h2 fuel hf, h3]
  have e : (List.replicate COUNT fill ++ vs).drop vs.length
      = vs.drop (vs.length - COUNT) := by
    rw [List.drop_append_eq_append_drop,
      List.drop_eq_nil_of_le (by simpa using hM), List.length_replicate]
    simp
  rw [e]
  refine ⟨rfl, ?_⟩
  simp
  omega

theorem circ_iterate_last_n_witness :
    Circ.iterList 2 (Circ.addAll 2 (Circ.new 2 (9 : ℕ)) [1, 2, 3]) 2
      = [2, 3] :=
  ((circ_iterate_last_n ℕ 2 9 [1, 2, 3] 2 (by norm_num) (by norm_num)
    (by norm_num)).1).trans (by decide)

/-! ## Theorems: `signal.rs` -/

theorem derivItems_length (data : List ℚ) :
    (derivItems data).length = data.length - 1 := by
  simp [derivItems]

theorem derivItems_getElem (data : List ℚ) (i : ℕ)
    (h : i < (derivItems data).length) :
    (derivItems data)[i]
      = { idx := i, sample := data.getD i 0, deriv := derivAt data i } := by
  simp [derivItems]

theorem heartbeats_six_eval :
    heartbeats [0, 1, 2, 1, 0, 1]
      = [{ high_idx := 1, high_value := 1, low_idx := 4, low_value := 0 }] := by
  norm_num [heartbeats, derivItems, derivAt, List.range_succ, hbRun]

/-- Claim C1 counterexample: on the window `[0, 1, 2, 1, 0, 1]` the
derivative sign turns negative at item 2 (previous difference `1 ≥ 0`,
difference `-1 < 0`), but the single emitted heartbeat has
`low_idx = 4, low_value = 0` — item 4 is where the difference turns back
non-negative (`derivAt 4 = 1`), not the point of the negative turn
(item 2, value 2).  So the detector does not emit "at the moment the
derivative sign turns negative with low = the current point". -/
theorem heartbeat_emission_counterexample :
    heartbeats [0, 1, 2, 1, 0, 1]
      = [{ high_idx := 1, high_value := 1, low_idx := 4, low_value := 0 }] ∧
    derivAt [0, 1, 2, 1, 0, 1] 1 = 1 ∧
    derivAt [0, 1, 2, 1, 0, 1] 2 = -1 ∧
    derivAt [0, 1, 2, 1, 0, 1] 4 = 1 := by
  refine ⟨heartbeats_six_eval, ?_, ?_, ?_⟩ <;> norm_num [derivAt]

theorem hbRun_sound_aux (data : List ℚ) :
    ∀ (m k : ℕ) (high : Option DerivItrItem) (ld : ℚ),
      (derivItems data).length ≤ k + m →
      1 ≤ k → ld = derivAt data (k - 1) →
      (high = none → ∀ i, highCandidate data i → ¬ i < k) →
      (∀ h, high = some h → highCandidate data h.idx ∧ h.idx < k ∧
        h.sample = data.getD h.idx 0 ∧
        ∀ i, h.idx < i → i < k → ¬ highCandidate data i) →
      ∀ hb ∈ hbRun high (some ld) ((derivItems data).drop k),
        HbSpec data hb := by
  intro m
  induction m with
  | zero =>
    intro k high ld hm _ _ _ _ hb hmem
    rw [List.drop_eq_nil_of_le (by omega)] at hmem
    simp [hbRun] at hmem
  | succ m ih =>
    intro k high ld hm hk hld hnone hsome hb hmem
    by_cases hkl : (derivItems data).length ≤ k
    · rw [List.drop_eq_nil_of_le hkl] at hmem
      simp [hbRun] at hmem
    · have hklt : k < (derivItems data).length := by omega
      have hdata : k < data.length - 1 := by
        rw [← derivItems_length data]; exact hklt
      rw [List.drop_eq_getElem_cons hklt, derivItems_getElem data k hklt]
        at hmem
      simp only [hbRun] at hmem
      by_cases hd : (0 : ℚ) ≤ derivAt data k
      · rw [if_pos hd] at hmem
        by_cases hl : (0 : ℚ) ≤ ld
        · rw [if_pos hl] at hmem
          refine ih (k + 1)
            (some { idx := k, sample := data.getD k 0, deriv := derivAt data k })
            (derivAt data k) (by omega) (by omega) (by simp) (by simp)
            ?_ hb hmem
          intro h hh
          injection hh with hh
          subst hh
          refine ⟨⟨hk, hd, hld ▸ hl⟩, ?_, rfl, ?_⟩
          · show k < k + 1
            omega
          · intro i hi1 hi2
            have hi1' : k < i := hi1
            exact absurd hi2 (by omega)
        · rw [if_neg hl] at hmem
          have hneg : derivAt data (k - 1) < 0 := by
            rw [← hld]; exact lt_of_not_le hl
          cases high with
          | none =>
            refine ih (k + 1) none (derivAt data k) (by omega) (by omega)
              (by simp) ?_ (by simp) hb hmem
            intro _ i hcand hik
            rcases Nat.lt_succ_iff_lt_or_eq.mp hik with hik' | hik'
            · exact hnone rfl i hcand hik'
            · subst hik'
              exact absurd hneg (not_lt.mpr hcand.2.2)
          | some h =>
            obtain ⟨hcand, hlt, hsam, hgap⟩ := hsome h rfl
            rcases List.mem_cons.mp hmem with hbeq | hmem'
            · subst hbeq
              refine ⟨hk, ?_, hd, hneg, rfl, hcand, hlt, hsam, hgap⟩
              show k + 1 < data.length
              omega
            · refine ih (k + 1) (some h) (derivAt data k) (by omega)
                (by omega) (by simp) (by simp) ?_ hb hmem'
              intro h' hh'
              injection hh' with hh'
              subst hh'
              refine ⟨hcand, by omega, hsam, ?_⟩
              intro i hi1 hi2
              rcases Nat.lt_succ_iff_lt_or_eq.mp hi2 with hi' | hi'
              · exact hgap i hi1 hi'
              · subst hi'
                intro hcand'
                exact absurd hneg (not_lt.mpr hcand'.2.2)
      · rw [if_neg hd] at hmem
        have hweird : ¬ highCandidate data k := by
          intro hcand
          exact hd hcand.2.1
        cases high with
        | none =>
          refine ih (k + 1) none (derivAt data k) (by omega) (by omega)
            (by simp) ?_ (by simp) hb hmem
          intro _ i hcand hik
          rcases Nat.lt_succ_iff_lt_or_eq.mp hik with hik' | hik'
          · exact hnone rfl i hcand hik'
          · subst hik'
            exact hweird hcand
        | some h =>
          obtain ⟨hcand, hlt, hsam, hgap⟩ := hsome h rfl
          refine ih (k + 1) (some h) (derivAt data k) (by omega) (by omega)
            (by simp) (by simp) ?_ hb hmem
          intro h' hh'
          injection hh' with hh'
          subst hh'
          refine ⟨hcand, by omega, hsam, ?_⟩
          intro i hi1 hi2
          rcases Nat.lt_succ_iff_lt_or_eq.mp hi2 with hi' | hi'
          · exact hgap i hi1 hi'
          · subst hi'
            exact hweird

/-- Claim C1 (amended): for every window, `DerivItr` yields the
`N - 1` first differences, item `i` being
`⟨i, data[i], data[i+1] - data[i]⟩`; the iterator seeds `last_deriv` on
the first item, tracks a candidate high at each item whose difference and
previous difference are both non-negative, and emits a
`Heartbeat{high, low}` at the moment the difference sign turns from
negative back to non-negative (not at the negative turn): every emitted
heartbeat has its low point at such a negative-to-non-negative turn, its
high point at the latest candidate before it (none in between), with the
recorded values being the window samples at those indices. -/
theorem heartbeat_detector_amended (data : List ℚ) :
    ((derivItems data).length = data.length - 1 ∧
      ∀ i, i + 1 < data.length →
        (derivItems data).getD i default
          = { idx := i, sample := data.getD i 0, deriv := derivAt data i }) ∧
    ∀ hb ∈ heartbeats data, HbSpec data hb := by
  constructor
  · constructor
    · exact derivItems_length data
    · intro i hi
      have hlt : i < (derivItems data).length := by
        rw [derivItems_length]; omega
      rw [List.getD_eq_getElem (derivItems data) default hlt]
      exact derivItems_getElem data i hlt
  · intro hb hmem
    unfold heartbeats at hmem
    rcases hds : derivItems data with _ | ⟨d0, rest⟩
    · rw [hds] at hmem
      simp [hbRun] at hmem
    · rw [hds] at hmem
      simp only [hbRun] at hmem
      have hlt0 : 0 < (derivItems data).length := by
        rw [hds]; simp
      have h0 : (derivItems data).getD 0 default
          = { idx := 0, sample := data.getD 0 0, deriv := derivAt data 0 } := by
        rw [List.getD_eq_getElem (derivItems data) default hlt0]
        exact derivItems_getElem data 0 hlt0
      rw [hds] at h0
      have hd0 : d0 = (⟨0, data.getD 0 0, derivAt data 0⟩ : DerivItrItem) := by
        simpa using h0
      have hrest : rest = (derivItems data).drop 1 := by
        rw [hds]
        rfl
      rw [hd0, hrest] at hmem
      refine hbRun_sound_aux data ((derivItems data).length) 1 none
        (derivAt data 0) (by omega) (by omega) (by simp) ?_ (by simp)
        hb ?_
      · intro _ i hcand hik
        have := hcand.1
        omega
      · simpa using hmem

theorem heartbeat_detector_amended_witness :
    HbSpec [0, 1, 2, 1, 0, 1]
      { high_idx := 1, high_value := 1, low_idx := 4, low_value := 0 } :=
  (heartbeat_detector_amended [0, 1, 2, 1, 0, 1]).2 _
    (by rw [heartbeats_six_eval]; exact List.mem_singleton_self _)

/-! ## Theorems: `pulse_sensor.rs` -/

theorem feed_append (s : PulseSensor) (xs ys : List ℕ) :
    s.feed (xs ++ ys) = (s.feed xs).feed ys := by
  unfold PulseSensor.feed
  rw [List.foldl_append]

theorem feed_cons (s : PulseSensor) (x : ℕ) (xs : List ℕ) :
    s.feed (x :: xs)
      = (((s.read_next_sample x).process_latest_sample).1).feed xs := rfl

/-- In a quiescent state (no pulse in progress, zero signal, clock still
inside the dicrotic-noise window and before the timeout) every block of
`process_latest_sample` after the opening clock lines is a no-op. -/
theorem quiescent_phases (u : PulseSensor) (hpulse : u.pulse = false)
    (hsig : u.signal = 0) (hn1 : u.n ≤ u.ibi / 5 * 3) (hn2 : u.n ≤ 2500) :
    u.troughPhase = u ∧ u.peakPhase = u ∧ u.beatPhase = (u, none, false) ∧
    u.pulseEndPhase = (u, none) ∧ u.timeoutPhase = u := by
  refine ⟨?_, ?_, ?_, ?_, ?_⟩
  · unfold PulseSensor.troughPhase
    rw [if_neg (by rintro ⟨-, h2⟩; omega)]
  · unfold PulseSensor.peakPhase
    rw [if_neg (by rintro ⟨h1, -⟩; omega)]
  · unfold PulseSensor.beatPhase
    rw [if_neg (by rintro ⟨-, h2, -, -⟩; omega)]
  · unfold PulseSensor.pulseEndPhase
    rw [if_neg (by rintro ⟨-, h2⟩; rw [hpulse] at h2; exact Bool.false_ne_true h2)]
  · unfold PulseSensor.timeoutPhase
    rw [if_neg (by omega)]

/-- One `read_next_sample 0` + `process_latest_sample` pass that hits no
branch: outside a pulse, before the dicrotic-noise window expires and
before the timeout, a zero sample only advances the clock. -/
theorem step_zero (s : PulseSensor) (hpulse : s.pulse = false)
    (hint : s.sample_interval_ms = 2)
    (hn1 : s.sample_counter + 2 - s.last_beat_time ≤ s.ibi / 5 * 3)
    (hn2 : s.sample_counter + 2 - s.last_beat_time ≤ 2500) :
    ((s.read_next_sample 0).process_latest_sample).1
      = { s with signal := 0, sample_counter := s.sample_counter + 2,
                 n := s.sample_counter + 2 - s.last_beat_time } := by
  have hmod : (s.sample_counter + 2 - s.last_beat_time) % 4294967296 % 65536
      = s.sample_counter + 2 - s.last_beat_time := by omega
  have hclock : (s.read_next_sample 0).clock
      = { s with signal := 0, sample_counter := s.sample_counter + 2,
                 n := s.sample_counter + 2 - s.last_beat_time } := by
    unfold PulseSensor.read_next_sample PulseSensor.clock
    dsimp only
    rw [hint, hmod]
  have hq := quiescent_phases
    { s with signal := 0, sample_counter := s.sample_counter + 2,
             n := s.sample_counter + 2 - s.last_beat_time }
    hpulse rfl hn1 hn2
  unfold PulseSensor.process_latest_sample
  rw [hclock]
  dsimp only
  rw [hq.1, hq.2.1, hq.2.2.1]
  dsimp only
  rw [hq.2.2.2.1]
  dsimp only
  rw [hq.2.2.2.2]

/-- Feeding `k ≥ 1` zero samples from a quiescent state only advances the
clock by `2k` ms. -/
theorem feed_zeros (s : PulseSensor) (hpulse : s.pulse = false)
    (hint : s.sample_interval_ms = 2) :
    ∀ k, 1 ≤ k →
      s.sample_counter + 2 * k - s.last_beat_time ≤ s.ibi / 5 * 3 →
      s.sample_counter + 2 * k - s.last_beat_time ≤ 2500 →
      s.last_beat_time ≤ s.sample_counter →
      s.feed (List.replicate k 0)
        = { s with signal := 0,
                   sample_counter := s.sample_counter + 2 * k,
                   n := s.sample_counter + 2 * k - s.last_beat_time } := by
  intro k
  induction k with
  | zero => omega
  | succ k ih =>
    intro _ hb1 hb2 hlbt
    by_cases hk : k = 0
    · subst hk
      have h1 : List.replicate 1 (0 : ℕ) = [0] := rfl
      rw [h1]
      have h2 : PulseSensor.feed s [0]
          = ((s.read_next_sample 0).process_latest_sample).1 := rfl
      rw [h2, step_zero s hpulse hint (by omega) (by omega)]
    · have hrep : List.replicate (k + 1) (0 : ℕ)
          = List.replicate k 0 ++ [0] := by
        rw [← List.replicate_succ']
      rw [hrep, feed_append,
        ih (by omega) (by omega) (by omega) hlbt]
      have h2 : ∀ u : PulseSensor, u.feed [0]
          = ((u.read_next_sample 0).process_latest_sample).1 := fun u => rfl
      rw [h2, step_zero
        { s with signal := 0, sample_counter := s.sample_counter + 2 * k,
                 n := s.sample_counter + 2 * k - s.last_beat_time }
        hpulse hint (by dsimp only; omega) (by dsimp only; omega)]
      dsimp only
      simp [PulseSensor.mk.injEq]
      all_goals omega

theorem feed_first_stretch :
    PulseSensor.feed PulseSensor.new (List.replicate 225 0) = sensorA := by
  rw [feed_zeros PulseSensor.new rfl rfl 225 (by omega) (by decide) (by decide)
    (by decide)]
  decide

theorem feed_traceHead :
    PulseSensor.feed PulseSensor.new traceHead = sensorD := by
  unfold traceHead
  rw [feed_append, feed_append, feed_first_stretch]
  have hB : PulseSensor.feed sensorA [3000] = sensorB := by decide
  rw [hB]
  have hrep : List.replicate 135 (0 : ℕ) = 0 :: List.replicate 134 0 := rfl
  rw [hrep, feed_cons]
  have hC : ((sensorB.read_next_sample 0).process_latest_sample).1
      = sensorC := by decide
  rw [hC, feed_zeros sensorC rfl rfl 134 (by omega) (by decide) (by decide)
    (by decide)]
  decide

/-- Claim C3 counterexample: the 362-sample trace `traceC3` (all samples
in the ADC range, beat period 252 ms) drives the adaptive-threshold
detector to compute `BPM = 60000/272 = 220`, outside the physiological
band `[40, 200]`, and `get_beats_per_minute` returns that out-of-band 220
instead of "no estimate": the detector has no physiological clamp at all. -/
theorem pulse_sensor_band_counterexample :
    PulseSensor.get_beats_per_minute (PulseSensor.feed PulseSensor.new traceC3)
      = 220 ∧ 200 < 220 := by
  refine ⟨?_, by norm_num⟩
  unfold traceC3
  rw [feed_append, feed_traceHead]
  decide

theorem beatPhase_ev (s : PulseSensor) (rl : List ℕ × ℕ)
    (h : (s.beatPhase).2.1 = some rl) :
    (s.beatPhase).1.bpm = 60000 / rl.2 ∧ (s.beatPhase).2.2 = false ∧
    (s.beatPhase).1.n = s.n := by
  unfold PulseSensor.beatPhase at h ⊢
  dsimp only at h ⊢
  split_ifs at h ⊢ <;> simp_all <;> rw [← h]

theorem pulseEnd_keeps (s : PulseSensor) :
    (s.pulseEndPhase).1.bpm = s.bpm ∧ (s.pulseEndPhase).1.n = s.n := by
  unfold PulseSensor.pulseEndPhase
  split_ifs <;> exact ⟨rfl, rfl⟩

theorem timeout_n (s : PulseSensor) : (s.timeoutPhase).n = s.n := by
  unfold PulseSensor.timeoutPhase
  split_ifs <;> rfl

theorem timeout_skip (s : PulseSensor) (h : s.n ≤ 2500) :
    s.timeoutPhase = s := by
  unfold PulseSensor.timeoutPhase
  rw [if_neg (by omega)]

/-- Claim C3 (amended): the adaptive-threshold detector applies no
physiological-band gate.  Whenever the BPM division executes with rate
array and divisor `rl` and the 2.5 s timeout does not also fire in the
same pass, the stored BPM — returned by `get_beats_per_minute` — is the
raw quotient `60000 / running_total`, whatever its value (out-of-band
values such as 220 included, see the counterexample). -/
theorem pulse_sensor_no_band_gate (s : PulseSensor) (rl : List ℕ × ℕ)
    (hev : (s.process_latest_sample).2.bpmDiv = some rl)
    (hn : (s.process_latest_sample).1.n ≤ 2500) :
    PulseSensor.get_beats_per_minute (s.process_latest_sample).1
      = 60000 / rl.2 := by
  unfold PulseSensor.get_beats_per_minute
  unfold PulseSensor.process_latest_sample at hev hn ⊢
  dsimp only at hev hn ⊢
  rcases hbp : (((s.clock).troughPhase).peakPhase).beatPhase with ⟨s1, ev, flag⟩
  rw [hbp] at hev hn
  have hb := beatPhase_ev ((s.clock).troughPhase).peakPhase rl
  rw [hbp] at hb
  cases flag with
  | true =>
    dsimp only at hev
    have := (hb hev).2.1
    simp at this
  | false =>
    dsimp only at hev hn ⊢
    obtain ⟨hbpm, -, -⟩ := hb hev
    have hn1 : (s1.pulseEndPhase).1.n ≤ 2500 := by
      rw [timeout_n] at hn
      exact hn
    rw [timeout_skip _ hn1]
    rw [(pulseEnd_keeps s1).1]
    exact hbpm

theorem clock_mid (s : PulseSensor) (h : s.Inv) : s.clock.Mid := by
  obtain ⟨h1, h2, h3, h4, h5, h6, h7, h8, h9, h10⟩ := h
  unfold PulseSensor.clock PulseSensor.Mid
  dsimp only
  rw [h6]
  have hmod : (s.sample_counter + 2 - s.last_beat_time) % 4294967296 % 65536
      = s.sample_counter + 2 - s.last_beat_time := by omega
  rw [hmod]
  exact ⟨h1, h2, h3, h4, h5, rfl, by omega, Or.inl rfl, by omega, h9, h10⟩

theorem trough_mid (s : PulseSensor) (h : s.Mid) : s.troughPhase.Mid := by
  obtain ⟨h1, h2, h3, h4, h5, h6, h7, h8, h9, h10, h11⟩ := h
  unfold PulseSensor.troughPhase
  split_ifs with hc1 hc2
  · unfold PulseSensor.Mid
    dsimp only
    exact ⟨by omega, h2, h3, h4, h5, h6, h7, h8, h9, h10, h11⟩
  · exact ⟨h1, h2, h3, h4, h5, h6, h7, h8, h9, h10, h11⟩
  · exact ⟨h1, h2, h3, h4, h5, h6, h7, h8, h9, h10, h11⟩

theorem peak_mid (s : PulseSensor) (h : s.Mid) : s.peakPhase.Mid := by
  obtain ⟨h1, h2, h3, h4, h5, h6, h7, h8, h9, h10, h11⟩ := h
  unfold PulseSensor.peakPhase
  split_ifs with hc1
  · unfold PulseSensor.Mid
    dsimp only
    exact ⟨by omega, by omega, h3, h4, h5, h6, h7, h8, h9, h10, h11⟩
  · exact ⟨h1, h2, h3, h4, h5, h6, h7, h8, h9, h10, h11⟩

theorem beatPhase_mid (s : PulseSensor) (h : s.Mid) :
    ((s.beatPhase).2.2 = true → (s.beatPhase).1.Inv) ∧
    ((s.beatPhase).2.2 = false → (s.beatPhase).1.Mid) ∧
    ∀ rl, (s.beatPhase).2.1 = some rl → rl.1.length = 10 ∧
      (∀ x ∈ rl.1, 250 < x ∧ x ≤ 2502) ∧ rl.2 = rl.1.sum % 65536 / 10 := by
  obtain ⟨h1, h2, h3, h4, h5, h6, h7, h8, h9, h10, h11⟩ := h
  unfold PulseSensor.beatPhase
  dsimp only
  split_ifs with hc hsec hfb hfb'
  · -- beat, second_beat reseed, first_beat early return
    refine ⟨?_, by simp, by simp⟩
    intro _
    unfold PulseSensor.Inv
    dsimp only
    exact ⟨h1, h2, h3, h4, h5, h6, le_rfl, by omega, by simp, by simp⟩
  · -- beat, second_beat reseed, BPM division
    refine ⟨by simp, ?_, ?_⟩
    · intro _
      unfold PulseSensor.Mid
      dsimp only
      refine ⟨h1, h2, h3, h4, h5, h6, le_rfl, Or.inr rfl, h9, by simp, ?_⟩
      intro _ _ x hx
      rcases List.mem_append.mp hx with hx' | hx'
      · have := List.eq_of_mem_replicate (List.mem_of_mem_drop hx')
        subst this
        exact ⟨hc.1, h9⟩
      · rcases List.mem_singleton.mp hx' with rfl
        exact ⟨hc.1, h9⟩
    · intro rl hrl
      rw [Option.some_inj] at hrl
      subst hrl
      refine ⟨by simp, ?_, rfl⟩
      intro x hx
      rcases List.mem_append.mp hx with hx' | hx'
      · have := List.eq_of_mem_replicate (List.mem_of_mem_drop hx')
        subst this
        exact ⟨hc.1, h9⟩
      · rcases List.mem_singleton.mp hx' with rfl
        exact ⟨hc.1, h9⟩
  · -- beat, no reseed, first_beat early return
    refine ⟨?_, by simp, by simp⟩
    intro _
    unfold PulseSensor.Inv
    dsimp only
    exact ⟨h1, h2, h3, h4, h5, h6, le_rfl, by omega, h10, by simp⟩
  · -- beat, no reseed, BPM division on the running rate array
    have hseed := h11 (by simpa using hfb') (by simpa using hsec)
    refine ⟨by simp, ?_, ?_⟩
    · intro _
      unfold PulseSensor.Mid
      dsimp only
      refine ⟨h1, h2, h3, h4, h5, h6, le_rfl, Or.inr rfl, h9, by simp; omega, ?_⟩
      intro _ _ x hx
      rcases List.mem_append.mp hx with hx' | hx'
      · exact hseed x (List.mem_of_mem_drop hx')
      · rcases List.mem_singleton.mp hx' with rfl
        exact ⟨hc.1, h9⟩
    · intro rl hrl
      rw [Option.some_inj] at hrl
      subst hrl
      refine ⟨by simp; omega, ?_, rfl⟩
      intro x hx
      rcases List.mem_append.mp hx with hx' | hx'
      · exact hseed x (List.mem_of_mem_drop hx')
      · rcases List.mem_singleton.mp hx' with rfl
        exact ⟨hc.1, h9⟩
  · -- no beat
    exact ⟨by simp, fun _ => ⟨h1, h2, h3, h4, h5, h6, h7, h8, h9, h10, h11⟩,
      by simp⟩

theorem pulseEnd_mid (s : PulseSensor) (h : s.Mid) :
    (s.pulseEndPhase).1.Mid ∧
    ∀ pt, (s.pulseEndPhase).2 = some pt →
      pt.2 ≤ pt.1 ∧ pt.1 ≤ 4095 ∧ pt.2 ≤ 4095 := by
  obtain ⟨h1, h2, h3, h4, h5, h6, h7, h8, h9, h10, h11⟩ := h
  unfold PulseSensor.pulseEndPhase
  split_ifs with hc
  · constructor
    · unfold PulseSensor.Mid
      dsimp only
      exact ⟨le_rfl, by omega, by omega, h4, h5, h6, h7, h8, h9, h10, h11⟩
    · intro pt hpt
      rw [Option.some_inj] at hpt
      subst hpt
      exact ⟨h1, h2, by omega⟩
  · exact ⟨⟨h1, h2, h3, h4, h5, h6, h7, h8, h9, h10, h11⟩, by simp⟩

theorem timeout_inv (s : PulseSensor) (h : s.Mid) : s.timeoutPhase.Inv := by
  obtain ⟨h1, h2, h3, h4, h5, h6, h7, h8, h9, h10, h11⟩ := h
  unfold PulseSensor.timeoutPhase ESP32_ADC_RESOLUTION
  split_ifs with hc
  · unfold PulseSensor.Inv
    dsimp only
    rw [h5]
    exact ⟨by omega, by omega, by omega, h4, rfl, h6, le_rfl, by omega, h10,
      by simp⟩
  · exact ⟨h1, h2, h3, h4, h5, h6, h7, by omega, h10, h11⟩

theorem process_inv (s : PulseSensor) (h : s.Inv) :
    (s.process_latest_sample).1.Inv ∧
    (∀ pt, (s.process_latest_sample).2.ampSub = some pt →
      pt.2 ≤ pt.1 ∧ pt.1 ≤ 4095 ∧ pt.2 ≤ 4095) ∧
    ∀ rl, (s.process_latest_sample).2.bpmDiv = some rl → rl.1.length = 10 ∧
      (∀ x ∈ rl.1, 250 < x ∧ x ≤ 2502) ∧ rl.2 = rl.1.sum % 65536 / 10 := by
  have hmid : (((s.clock).troughPhase).peakPhase).Mid :=
    peak_mid _ (trough_mid _ (clock_mid s h))
  have hbeat := beatPhase_mid _ hmid
  unfold PulseSensor.process_latest_sample
  dsimp only
  rcases hbp : (((s.clock).troughPhase).peakPhase).beatPhase with ⟨s1, ev, flag⟩
  rw [hbp] at hbeat
  cases flag with
  | true =>
    dsimp only at hbeat ⊢
    exact ⟨hbeat.1 rfl, by simp, fun rl hrl => hbeat.2.2 rl hrl⟩
  | false =>
    dsimp only at hbeat ⊢
    have hpe := pulseEnd_mid s1 (hbeat.2.1 rfl)
    exact ⟨timeout_inv _ hpe.1, fun pt hpt => hpe.2 pt hpt,
      fun rl hrl => hbeat.2.2 rl hrl⟩

theorem read_inv (s : PulseSensor) (sample : ℕ) (hs : sample ≤ 4095)
    (h : s.Inv) : (s.read_next_sample sample).Inv := by
  obtain ⟨h1, h2, h3, h4, h5, h6, h7, h8, h9, h10⟩ := h
  exact ⟨h1, h2, h3, hs, h5, h6, h7, h8, h9, h10⟩

theorem reset_inv (s : PulseSensor) (h : s.Inv) : s.reset_variables.Inv := by
  obtain ⟨h1, h2, h3, h4, h5, h6, h7, h8, h9, h10⟩ := h
  unfold PulseSensor.reset_variables PulseSensor.Inv ESP32_ADC_RESOLUTION
  dsimp only
  rw [h5]
  exact ⟨by omega, by omega, by omega, h4, rfl, h6, le_rfl, by omega, h9,
    by simp⟩

theorem new_inv : PulseSensor.new.Inv := by decide

theorem reachable_inv (s : PulseSensor) (h : s.Reachable) : s.Inv := by
  induction h with
  | init => exact new_inv
  | read hr hs ih => exact read_inv _ _ hs ih
  | process hr ih => exact (process_inv _ ih).1
  | reset hr ih => exact reset_inv _ ih

theorem sum_bounded (l : List ℕ) (a b : ℕ) (h : ∀ x ∈ l, a ≤ x ∧ x ≤ b) :
    l.length * a ≤ l.sum ∧ l.sum ≤ l.length * b := by
  induction l with
  | nil => simp
  | cons x xs ih =>
    have hx := h x (by simp)
    have hxs := ih (fun y hy => h y (by simp [hy]))
    simp only [List.length_cons, List.sum_cons, Nat.succ_mul]
    omega

theorem feed_reachable (s : PulseSensor) (h : s.Reachable) (xs : List ℕ)
    (hxs : ∀ x ∈ xs, x ≤ 4095) : (s.feed xs).Reachable := by
  induction xs generalizing s with
  | nil => exact h
  | cons x xs ih =>
    rw [feed_cons]
    exact ih _ (.process (.read h (hxs x (by simp))))
      (fun y hy => hxs y (by simp [hy]))

theorem sensorPre_reachable : sensorPre.Reachable := by
  have hall : ∀ x ∈ traceHead, x ≤ 4095 := by
    intro x hx
    unfold traceHead at hx
    rcases List.mem_append.mp hx with hx' | hx'
    · rcases List.mem_append.mp hx' with hx'' | hx''
      · rw [List.eq_of_mem_replicate hx'']
        omega
      · rcases List.mem_singleton.mp hx'' with rfl
        omega
    · rw [List.eq_of_mem_replicate hx']
      omega
  exact .read (feed_reachable _ .init traceHead hall) (by omega)

/-- Claim C9: in every state reachable from `new()` by reads of in-range
ADC samples (0..4095), processing passes and resets, the trough never
exceeds the peak and trough, peak and threshold all stay at most 4095;
consequently, whenever the pulse-end branch executes its `u16`
subtraction `amp = p - t` and `u16` addition `(p + t) / 2`, the operand
pair satisfies `t ≤ p` and `p + t < 65536`, so the subtraction cannot
underflow and the addition cannot overflow (the wrapped operations equal
the exact ones). -/
theorem pulse_sensor_peak_trough_safe (s : PulseSensor) (h : s.Reachable) :
    s.t ≤ s.p ∧ s.p ≤ 4095 ∧ s.t ≤ 4095 ∧ s.thresh ≤ 4095 ∧
    ∀ pt, (s.process_latest_sample).2.ampSub = some pt →
      pt.2 ≤ pt.1 ∧ pt.1 + pt.2 < 65536 ∧
      (pt.1 + 65536 - pt.2) % 65536 = pt.1 - pt.2 ∧
      (pt.1 + pt.2) % 65536 = pt.1 + pt.2 := by
  have hinv := reachable_inv s h
  have hproc := process_inv s hinv
  obtain ⟨h1, h2, h3, h4, h5, h6, h7, h8, h9, h10⟩ := hinv
  refine ⟨h1, h2, by omega, h3, ?_⟩
  intro pt hpt
  obtain ⟨ha, hb, hc⟩ := hproc.2.1 pt hpt
  exact ⟨ha, by omega, by omega, by omega⟩

theorem pulse_sensor_peak_trough_safe_witness :
    PulseSensor.new.t ≤ PulseSensor.new.p ∧ PulseSensor.new.p ≤ 4095 ∧
    PulseSensor.new.t ≤ 4095 ∧ PulseSensor.new.thresh ≤ 4095 := by
  have h := pulse_sensor_peak_trough_safe PulseSensor.new .init
  exact ⟨h.1, h.2.1, h.2.2.1, h.2.2.2.1⟩

/-- Claim C10: whenever a processing pass of a reachable state executes
the BPM division `60_000 / running_total`, every entry of the 10-slot
rate array was written with an inter-beat interval in `(250, 2502]` (the
array is fully reseeded on the second beat after every re-arm, and every
later push satisfies `n > 250`), so the `u16` sum of the array lies in
`[2510, 25020]` — no wrap — and `running_total = sum / 10 ≥ 251` is never
zero: the division cannot divide by zero and the sum cannot overflow. -/
theorem pulse_sensor_bpm_div_safe (s : PulseSensor) (h : s.Reachable)
    (rl : List ℕ × ℕ)
    (hev : (s.process_latest_sample).2.bpmDiv = some rl) :
    (∀ x ∈ rl.1, 250 < x ∧ x ≤ 2502) ∧ 2510 ≤ rl.1.sum ∧
    rl.1.sum < 65536 ∧ rl.2 = rl.1.sum / 10 ∧ 251 ≤ rl.2 ∧ rl.2 ≠ 0 := by
  have hproc := process_inv s (reachable_inv s h)
  obtain ⟨hlen, hmem, hdiv⟩ := hproc.2.2 rl hev
  have hsum := sum_bounded rl.1 251 2502 (fun x hx =>
    ⟨(hmem x hx).1, (hmem x hx).2⟩)
  rw [hlen] at hsum
  have h1 : 2510 ≤ rl.1.sum := by omega
  have h2 : rl.1.sum < 65536 := by omega
  have h3 : rl.2 = rl.1.sum / 10 := by
    rw [hdiv, Nat.mod_eq_of_lt h2]
  exact ⟨hmem, h1, h2, h3, by omega, by omega⟩

theorem pulse_sensor_bpm_div_safe_witness :
    2510 ≤ (List.replicate 10 (272 : ℕ)).sum ∧
    (List.replicate 10 (272 : ℕ)).sum < 65536 ∧
    (272 : ℕ) = (List.replicate 10 (272 : ℕ)).sum / 10 ∧ (272 : ℕ) ≠ 0 := by
  have hev : (sensorPre.process_latest_sample).2.bpmDiv
      = some (List.replicate 10 272, 272) := by
    have hs : sensorPre = ({ sensorD with signal := 3000 } : PulseSensor) := by
      unfold sensorPre PulseSensor.read_next_sample
      rw [feed_traceHead]
    rw [hs]
    decide
  have h := pulse_sensor_bpm_div_safe sensorPre sensorPre_reachable
    (List.replicate 10 272, 272) hev
  exact ⟨h.2.1, h.2.2.1, h.2.2.2.1, h.2.2.2.2.2⟩

theorem pulse_sensor_no_band_gate_witness :
    PulseSensor.get_beats_per_minute (sensorPre.process_latest_sample).1
      = 60000 / 272 := by
  have hs : sensorPre = ({ sensorD with signal := 3000 } : PulseSensor) := by
    unfold sensorPre PulseSensor.read_next_sample
    rw [feed_traceHead]
  rw [hs]
  exact pulse_sensor_no_band_gate _ (List.replicate 10 272, 272)
    (by decide) (by decide)

end EspPulser
